import Mathlib

/-!
Shallow embedding of the table-renderer package (pagination state, sort and
pagination link generation, and query-string handling) together with proofs
about its behaviour.

Go strings are modelled as lists of characters, Go `int` as `Int` (Go's
truncating integer division is `Int.tdiv`), and Go maps from string to string
as functions `GoStr → Option GoStr` where the code only stores and looks up,
and as association lists where the code iterates over a map (the iteration
order of a Go map is unspecified, so a result proved for an arbitrary list
order covers every order the real map may produce).
-/

namespace TableRenderer

/-- A Go string, modelled as its list of characters. -/
abbrev GoStr := List Char

/-- Conversion from Lean string literals to the Go string model. -/
def gs (s : String) : GoStr := s.data

/-- Go `strings.Split s sep` for a one-character separator: splits at every
occurrence and never returns an empty list; the empty string yields `[[]]`
(the recursive call never returns `[]`, so prepending to its head is the
faithful "extend the first chunk" step). -/
def goSplit (c : Char) : GoStr → List GoStr
  | [] => [[]]
  | x :: xs =>
    let r := goSplit c xs
    if x = c then [] :: r else (x :: r.headD []) :: r.tail

/-- Go `strings.Join parts sep` for a one-character separator. -/
def goJoin (c : Char) : List GoStr → GoStr
  | [] => []
  | [s] => s
  | s :: t :: rest => s ++ c :: goJoin c (t :: rest)

/-- Go `strings.SplitN s sep 2` for a one-character separator, fused with the
`strings.Contains s sep` test that guards every such call in the source:
`some (before, after)` splits at the first occurrence of the separator,
`none` means the separator does not occur in `s`. -/
def splitFirst (c : Char) : GoStr → Option (GoStr × GoStr)
  | [] => none
  | x :: xs =>
    if x = c then some ([], xs)
    else (splitFirst c xs).map (fun p => (x :: p.1, p.2))

/-- Go `strings.TrimPrefix s pre` for the one-character prefixes used in the
source (a single leading question mark). -/
def trimPrefix1 (c : Char) (s : GoStr) : GoStr :=
  match s with
  | [] => []
  | x :: xs => if x = c then xs else s

/-- Go `fmt.Sprintf "%s=%s" k v`. -/
def pairStr (k v : GoStr) : GoStr := k ++ '=' :: v

/-- Go `fmt.Sprintf "%d" n`. -/
def intToStr (n : Int) : GoStr := (toString n).data

/-- The URL composition performed identically at every link-generation site of
the source: an empty base yields a bare query (question mark plus query
string), a base already holding a question mark gets the query appended with
an ampersand, any other base gets it appended with a question mark. -/
def buildURL (baseURL queryString : GoStr) : GoStr :=
  if baseURL = [] then '?' :: queryString
  else if '?' ∈ baseURL then baseURL ++ '&' :: queryString
  else baseURL ++ '?' :: queryString

/-- The `Pagination` configuration struct (the fields read by the modelled
functions). -/
structure Pagination where
  Enabled : Bool := false
  PageSize : Int := 0
  CurrentPage : Int := 0
  BaseURL : GoStr := []
  QueryParam : GoStr := []
  TotalCount : Int := 0
deriving DecidableEq

/-- The `Sorting` configuration struct. -/
structure Sorting where
  Enabled : Bool := false
  SortBy : GoStr := []
  SortOrder : GoStr := []
  BaseURL : GoStr := []
  QueryParam : GoStr := []
  OrderParam : GoStr := []
deriving DecidableEq

/-- The `PaginationInfo` struct holding the computed pagination state. -/
structure PaginationInfo where
  CurrentPage : Int
  TotalPages : Int
  TotalRows : Int
  PageSize : Int
  StartRow : Int
  EndRow : Int
deriving DecidableEq

/-- `calculatePagination` from the source: computes the pagination state from
the current page's row count and the optional pagination config.  A nil
config, a disabled config or a non-positive page size all yield the
degenerate single-page state. -/
def calculatePagination (currentPageDataCount : Int) (pagination : Option Pagination) :
    PaginationInfo :=
  match pagination with
  | none =>
    { CurrentPage := 1, TotalPages := 1, TotalRows := currentPageDataCount,
      PageSize := currentPageDataCount, StartRow := 1, EndRow := currentPageDataCount }
  | some p =>
    if p.Enabled = false ∨ p.PageSize ≤ 0 then
      { CurrentPage := 1, TotalPages := 1, TotalRows := currentPageDataCount,
        PageSize := currentPageDataCount, StartRow := 1, EndRow := currentPageDataCount }
    else
      let totalRows := if p.TotalCount = 0 then currentPageDataCount else p.TotalCount
      let currentPage := if p.CurrentPage < 1 then 1 else p.CurrentPage
      let totalPages := Int.tdiv (totalRows + p.PageSize - 1) p.PageSize
      let currentPage2 := if currentPage > totalPages then totalPages else currentPage
      let startRow := (currentPage2 - 1) * p.PageSize + 1
      let endRow := currentPage2 * p.PageSize
      { CurrentPage := currentPage2, TotalPages := totalPages, TotalRows := totalRows,
        PageSize := p.PageSize, StartRow := startRow,
        EndRow := if endRow > totalRows then totalRows else endRow }

/-- Explicit form of `calculatePagination` on an enabled config with a
positive page size. -/
theorem calculatePagination_enabled (dataCount : Int) (p : Pagination)
    (hen : p.Enabled = true) (hps : 1 ≤ p.PageSize) :
    calculatePagination dataCount (some p) =
      { CurrentPage :=
          if (if p.CurrentPage < 1 then 1 else p.CurrentPage) >
              Int.tdiv ((if p.TotalCount = 0 then dataCount else p.TotalCount) + p.PageSize - 1)
                p.PageSize then
            Int.tdiv ((if p.TotalCount = 0 then dataCount else p.TotalCount) + p.PageSize - 1)
              p.PageSize
          else if p.CurrentPage < 1 then 1 else p.CurrentPage,
        TotalPages :=
          Int.tdiv ((if p.TotalCount = 0 then dataCount else p.TotalCount) + p.PageSize - 1)
            p.PageSize,
        TotalRows := if p.TotalCount = 0 then dataCount else p.TotalCount,
        PageSize := p.PageSize,
        StartRow :=
          ((if (if p.CurrentPage < 1 then 1 else p.CurrentPage) >
              Int.tdiv ((if p.TotalCount = 0 then dataCount else p.TotalCount) + p.PageSize - 1)
                p.PageSize then
            Int.tdiv ((if p.TotalCount = 0 then dataCount else p.TotalCount) + p.PageSize - 1)
              p.PageSize
          else if p.CurrentPage < 1 then 1 else p.CurrentPage) - 1) * p.PageSize + 1,
        EndRow :=
          if (if (if p.CurrentPage < 1 then 1 else p.CurrentPage) >
              Int.tdiv ((if p.TotalCount = 0 then dataCount else p.TotalCount) + p.PageSize - 1)
                p.PageSize then
            Int.tdiv ((if p.TotalCount = 0 then dataCount else p.TotalCount) + p.PageSize - 1)
              p.PageSize
          else if p.CurrentPage < 1 then 1 else p.CurrentPage) * p.PageSize >
              (if p.TotalCount = 0 then dataCount else p.TotalCount) then
            if p.TotalCount = 0 then dataCount else p.TotalCount
          else
            (if (if p.CurrentPage < 1 then 1 else p.CurrentPage) >
              Int.tdiv ((if p.TotalCount = 0 then dataCount else p.TotalCount) + p.PageSize - 1)
                p.PageSize then
              Int.tdiv ((if p.TotalCount = 0 then dataCount else p.TotalCount) + p.PageSize - 1)
                p.PageSize
            else if p.CurrentPage < 1 then 1 else p.CurrentPage) * p.PageSize } := by
  have hcond : ¬ (p.Enabled = false ∨ p.PageSize ≤ 0) := by
    push_neg
    exact ⟨by simp [hen], by omega⟩
  simp only [calculatePagination]
  rw [if_neg hcond]

/-- Truncating ceiling-division identity: for `0 ≤ a` and `1 ≤ b`,
`(a + b - 1) tdiv b` is the ceiling of the rational `a / b`. -/
theorem tdiv_ceil_eq (a b : Int) (ha : 0 ≤ a) (hb : 1 ≤ b) :
    Int.tdiv (a + b - 1) b = ⌈(a : ℚ) / (b : ℚ)⌉ := by
  have hb0 : (0 : Int) < b := hb
  rw [Int.tdiv_eq_ediv (by omega) (by omega)]
  symm
  rw [Int.ceil_eq_iff]
  have hq := Int.ediv_add_emod (a + b - 1) b
  have hr0 : 0 ≤ (a + b - 1) % b := Int.emod_nonneg _ (by omega)
  have hrb : (a + b - 1) % b < b := Int.emod_lt_of_pos _ hb0
  set q := (a + b - 1) / b with hqdef
  set r := (a + b - 1) % b with hrdef
  have hbQ : (0 : ℚ) < (b : ℚ) := by exact_mod_cast hb0
  constructor
  · rw [show ((q : ℚ) - 1) = ((q - 1 : Int) : ℚ) by push_cast; ring,
      lt_div_iff₀ hbQ]
    have hgoal : (q - 1) * b < a := by nlinarith [hq, hr0]
    exact_mod_cast hgoal
  · rw [div_le_iff₀ hbQ]
    have hgoal : a ≤ q * b := by nlinarith [hq, hrb]
    exact_mod_cast hgoal

/-- C1, amended: with pagination enabled and a positive page size, the
computed `TotalPages` equals the integer ceiling of the effective total row
count divided by the page size, and it is at least 1 whenever that row count
is at least 1.  (When the effective row count is 0 the code yields
`TotalPages = 0`, which is why the unconditional `TotalPages ≥ 1` of the
original claim fails.) -/
theorem c1_totalPages_ceil (dataCount tr : Int) (p : Pagination)
    (hen : p.Enabled = true) (hps : 1 ≤ p.PageSize)
    (htr : tr = if p.TotalCount = 0 then dataCount else p.TotalCount)
    (htr0 : 0 ≤ tr) :
    (calculatePagination dataCount (some p)).TotalPages = ⌈(tr : ℚ) / (p.PageSize : ℚ)⌉ ∧
    (1 ≤ tr → 1 ≤ (calculatePagination dataCount (some p)).TotalPages) := by
  rw [calculatePagination_enabled dataCount p hen hps]
  rw [← htr]
  constructor
  · exact tdiv_ceil_eq tr p.PageSize htr0 hps
  · intro h1
    show 1 ≤ Int.tdiv (tr + p.PageSize - 1) p.PageSize
    rw [Int.tdiv_eq_ediv (by omega) (by omega)]
    rw [Int.le_ediv_iff_mul_le (by omega)]
    omega

/-- Witness for the amended C1 theorem at a page size of 10 and a total row
count of 47 (the spec's own worked scenario). -/
theorem c1_witness :
    (calculatePagination 5
        (some { Enabled := true, PageSize := 10, CurrentPage := 3,
                TotalCount := 47 })).TotalPages = ⌈((47 : Int) : ℚ) / ((10 : Int) : ℚ)⌉ ∧
    (1 ≤ (47 : Int) → 1 ≤ (calculatePagination 5
        (some { Enabled := true, PageSize := 10, CurrentPage := 3,
                TotalCount := 47 })).TotalPages) :=
  c1_totalPages_ceil 5 47 { Enabled := true, PageSize := 10, CurrentPage := 3, TotalCount := 47 }
    (by decide) (by decide) (by decide) (by decide)

/-- C1 counterexample: enabled pagination with page size 10 but an effective
total row count of 0 (zero `TotalCount`, no current-page rows) yields
`TotalPages = 0`, so the claimed unconditional `TotalPages ≥ 1` is false. -/
theorem c1_counterexample :
    (calculatePagination 0
        (some { Enabled := true, PageSize := 10, CurrentPage := 1 })).TotalPages = 0 ∧
    ¬ 1 ≤ (calculatePagination 0
        (some { Enabled := true, PageSize := 10, CurrentPage := 1 })).TotalPages := by
  decide

/-- C2, amended: with pagination enabled, a positive page size and a positive
effective total row count, the computed `CurrentPage` is clamped into
`[1, TotalPages]` no matter which (possibly zero or negative) page was
requested.  (With an effective row count of 0 the code returns
`CurrentPage = 0`, which is why the original unconditional claim fails.) -/
theorem c2_currentPage_clamped (dataCount : Int) (p : Pagination)
    (hen : p.Enabled = true) (hps : 1 ≤ p.PageSize)
    (htr : 1 ≤ (if p.TotalCount = 0 then dataCount else p.TotalCount)) :
    1 ≤ (calculatePagination dataCount (some p)).CurrentPage ∧
    (calculatePagination dataCount (some p)).CurrentPage ≤
      (calculatePagination dataCount (some p)).TotalPages := by
  rw [calculatePagination_enabled dataCount p hen hps]
  set tr := if p.TotalCount = 0 then dataCount else p.TotalCount with htrdef
  have htp : 1 ≤ Int.tdiv (tr + p.PageSize - 1) p.PageSize := by
    rw [Int.tdiv_eq_ediv (by omega) (by omega)]
    rw [Int.le_ediv_iff_mul_le (by omega)]
    omega
  set tp := Int.tdiv (tr + p.PageSize - 1) p.PageSize
  constructor <;> simp only [] <;> split_ifs <;> omega

/-- Witness for the amended C2 theorem: requested page 99 out of 5 total
pages (47 rows, page size 10) is clamped to page 5. -/
theorem c2_witness :
    1 ≤ (calculatePagination 7
        (some { Enabled := true, PageSize := 10, CurrentPage := 99,
                TotalCount := 47 })).CurrentPage ∧
    (calculatePagination 7
        (some { Enabled := true, PageSize := 10, CurrentPage := 99,
                TotalCount := 47 })).CurrentPage ≤
      (calculatePagination 7
        (some { Enabled := true, PageSize := 10, CurrentPage := 99,
                TotalCount := 47 })).TotalPages :=
  c2_currentPage_clamped 7
    { Enabled := true, PageSize := 10, CurrentPage := 99, TotalCount := 47 }
    (by decide) (by decide) (by decide)

/-- C2 counterexample: enabled pagination, page size 5, requested page 3, but
an effective total row count of 0: the returned `CurrentPage` is 0, violating
the claimed `1 ≤ CurrentPage`. -/
theorem c2_counterexample :
    (calculatePagination 0
        (some { Enabled := true, PageSize := 5, CurrentPage := 3 })).CurrentPage = 0 ∧
    ¬ 1 ≤ (calculatePagination 0
        (some { Enabled := true, PageSize := 5, CurrentPage := 3 })).CurrentPage := by
  decide

/-- A Go `map[string]string`, modelled by its lookup function. -/
abbrev QueryMap := GoStr → Option GoStr

/-- The empty Go map. -/
def emptyQM : QueryMap := fun _ => none

/-- Go map assignment `m[k] = v`. -/
def qmInsert (m : QueryMap) (k v : GoStr) : QueryMap :=
  fun q => if q = k then some v else m q

/-- One iteration of the pair-storing loop of `parseQueryParams`: an
ampersand chunk containing an equals sign is split at its first equals sign
and stored, overwriting any earlier value for the same key; a chunk without
one is dropped. -/
def storePair (acc : QueryMap) (pair : GoStr) : QueryMap :=
  match splitFirst '=' pair with
  | some kv => qmInsert acc kv.1 kv.2
  | none => acc

/-- The pair-storing loop of `parseQueryParams`. -/
def parsePairsInto (m : QueryMap) (pairs : List GoStr) : QueryMap :=
  pairs.foldl storePair m

/-- The query-part extraction at the top of `parseQueryParams`: take the
second chunk of a question-mark split when the input holds a question mark,
then drop one leading question mark. -/
def stripQuery (urlOrQuery : GoStr) : GoStr :=
  let queryString :=
    if '?' ∈ urlOrQuery then
      let parts := goSplit '?' urlOrQuery
      if 1 < parts.length then parts.getD 1 [] else urlOrQuery
    else urlOrQuery
  trimPrefix1 '?' queryString

/-- `parseQueryParams` from the source: extracts the query parameters of a
URL or query string into a map. -/
def parseQueryParams (urlOrQuery : GoStr) : QueryMap :=
  if urlOrQuery = [] then emptyQM
  else
    let queryString2 := stripQuery urlOrQuery
    if queryString2 = [] then emptyQM
    else parsePairsInto emptyQM (goSplit '&' queryString2)

/-- The key/value pairs of a query string as the spec describes them: split
on ampersands, drop the chunks holding no equals sign, split every other
chunk at its first equals sign. -/
def specPairs (qs : GoStr) : List (GoStr × GoStr) :=
  (goSplit '&' qs).filterMap (splitFirst '=')

/-- The value of the last pair carrying key `k`, modelling the spec's "last
occurrence of a duplicate key wins". -/
def lastValueFor (k : GoStr) : List (GoStr × GoStr) → Option GoStr
  | [] => none
  | kv :: rest =>
    match lastValueFor k rest with
    | some v => some v
    | none => if kv.1 = k then some kv.2 else none

/-- Modelled from the amended C6 wording: the portion of the input lying
strictly between the first question mark and the second one (up to the end
when there is no second); the whole input when it holds no question mark. -/
def betweenFirstQs (s : GoStr) : GoStr :=
  match splitFirst '?' s with
  | some pr => ((splitFirst '?' pr.2).map Prod.fst).getD pr.2
  | none => s

/-- Modelled from the original C6 claim's words: everything up to and
including the first question mark is stripped and the entire remainder is
parsed. -/
def claimStripC6 (s : GoStr) : GoStr :=
  ((splitFirst '?' s).map Prod.snd).getD s

theorem goSplit_cons (c x : Char) (xs : GoStr) :
    goSplit c (x :: xs) =
      if x = c then [] :: goSplit c xs
      else (x :: (goSplit c xs).headD []) :: (goSplit c xs).tail := rfl

theorem goSplit_ne_nil (c : Char) (s : GoStr) : goSplit c s ≠ [] := by
  cases s with
  | nil => simp [goSplit]
  | cons x xs =>
    rw [goSplit_cons]
    split <;> simp

theorem goSplit_exists_cons (c : Char) (s : GoStr) :
    ∃ h t, goSplit c s = h :: t := by
  cases he : goSplit c s with
  | nil => exact absurd he (goSplit_ne_nil c s)
  | cons a b => exact ⟨a, b, rfl⟩

theorem goSplit_cons_of_eq (c x : Char) (xs : GoStr) (h : GoStr) (t : List GoStr)
    (he : goSplit c xs = h :: t) :
    goSplit c (x :: xs) = if x = c then [] :: h :: t else (x :: h) :: t := by
  rw [goSplit_cons, he]
  by_cases hx : x = c
  · rw [if_pos hx, if_pos hx]
  · rw [if_neg hx, if_neg hx]
    rfl

theorem not_mem_of_mem_goSplit (c : Char) (s t : GoStr) (ht : t ∈ goSplit c s) : c ∉ t := by
  induction s generalizing t with
  | nil =>
    simp only [goSplit, List.mem_singleton] at ht
    subst ht
    simp
  | cons x xs ih =>
    obtain ⟨hh, tt, hs⟩ := goSplit_exists_cons c xs
    rw [goSplit_cons_of_eq c x xs hh tt hs] at ht
    by_cases hx : x = c
    · rw [if_pos hx] at ht
      rcases List.mem_cons.mp ht with h1 | h2
      · subst h1; simp
      · exact ih t (hs ▸ h2)
    · rw [if_neg hx] at ht
      rcases List.mem_cons.mp ht with h1 | h2
      · subst h1
        intro hmem
        rcases List.mem_cons.mp hmem with h3 | h4
        · exact hx h3.symm
        · exact ih hh (hs ▸ List.mem_cons_self hh tt) h4
      · exact ih t (by rw [hs]; exact List.mem_cons_of_mem hh h2)

theorem goSplit_of_not_mem (c : Char) (s : GoStr) (h : c ∉ s) : goSplit c s = [s] := by
  induction s with
  | nil => rfl
  | cons x xs ih =>
    have hx : ¬ x = c := fun he => h (he ▸ List.mem_cons_self x xs)
    have hxs : c ∉ xs := fun hm => h (List.mem_cons_of_mem x hm)
    rw [goSplit_cons_of_eq c x xs xs [] (ih hxs), if_neg hx]

theorem splitFirst_none (c : Char) (s : GoStr) : splitFirst c s = none ↔ c ∉ s := by
  induction s with
  | nil => simp [splitFirst]
  | cons x xs ih =>
    simp only [splitFirst]
    by_cases hx : x = c
    · subst hx
      simp
    · rw [if_neg hx]
      cases h : splitFirst c xs with
      | none =>
        have hcx : c ∉ xs := ih.mp h
        simp only [Option.map_none']
        constructor
        · intro _ hmem
          rcases List.mem_cons.mp hmem with h1 | h2
          · exact hx h1.symm
          · exact hcx h2
        · intro _
          trivial
      | some p =>
        have hcx : c ∈ xs := by
          by_contra hc
          rw [ih.mpr hc] at h
          exact Option.noConfusion h
        simp only [Option.map_some']
        constructor
        · intro hcon
          exact Option.noConfusion hcon
        · intro hmem
          exact absurd (List.mem_cons_of_mem x hcx) hmem

theorem splitFirst_eq_some (c : Char) {s a b : GoStr}
    (h : splitFirst c s = some (a, b)) : s = a ++ c :: b ∧ c ∉ a := by
  induction s generalizing a b with
  | nil => exact Option.noConfusion h
  | cons x xs ih =>
    simp only [splitFirst] at h
    by_cases hx : x = c
    · rw [if_pos hx] at h
      have h2 := Option.some.inj h
      injection h2 with ha hb
      subst ha
      subst hb
      subst hx
      exact ⟨rfl, by simp⟩
    · rw [if_neg hx] at h
      cases hs : splitFirst c xs with
      | none =>
        rw [hs] at h
        exact Option.noConfusion h
      | some p =>
        rw [hs, Option.map_some'] at h
        have h2 := Option.some.inj h
        injection h2 with h1 h2b
        subst h1
        subst h2b
        obtain ⟨hp1, hp2⟩ := ih (a := p.1) (b := p.2) (by rw [hs])
        constructor
        · rw [List.cons_append, hp1]
        · intro hmem
          rcases List.mem_cons.mp hmem with h3 | h4
          · exact hx h3.symm
          · exact hp2 h4

theorem splitFirst_append (c : Char) (a b : GoStr) (ha : c ∉ a) :
    splitFirst c (a ++ c :: b) = some (a, b) := by
  induction a with
  | nil => simp [splitFirst]
  | cons x xs ih =>
    have hx : ¬ x = c := fun he => ha (he ▸ List.mem_cons_self x xs)
    have hxs : c ∉ xs := fun hm => ha (List.mem_cons_of_mem x hm)
    rw [List.cons_append]
    show (if x = c then some ([], xs ++ c :: b)
      else (splitFirst c (xs ++ c :: b)).map (fun p => (x :: p.1, p.2))) = some (x :: xs, b)
    rw [if_neg hx, ih hxs, Option.map_some']

theorem goSplit_append (c : Char) (a t : GoStr) (ha : c ∉ a) :
    goSplit c (a ++ c :: t) = a :: goSplit c t := by
  induction a with
  | nil =>
    obtain ⟨hh, tt, he⟩ := goSplit_exists_cons c t
    rw [List.nil_append, goSplit_cons_of_eq c c t hh tt he, if_pos rfl, ← he]
  | cons x xs ih =>
    have hx : ¬ x = c := fun he => ha (he ▸ List.mem_cons_self x xs)
    have hxs : c ∉ xs := fun hm => ha (List.mem_cons_of_mem x hm)
    rw [List.cons_append, goSplit_cons_of_eq c x (xs ++ c :: t) xs (goSplit c t) (ih hxs),
      if_neg hx]

theorem goSplit_goJoin (c : Char) (parts : List GoStr)
    (hne : parts ≠ []) (hc : ∀ p ∈ parts, c ∉ p) :
    goSplit c (goJoin c parts) = parts := by
  induction parts with
  | nil => exact absurd rfl hne
  | cons p rest ih =>
    cases rest with
    | nil => exact goSplit_of_not_mem c p (hc p (by simp))
    | cons q rest2 =>
      have hj : goJoin c (p :: q :: rest2) = p ++ c :: goJoin c (q :: rest2) := rfl
      rw [hj, goSplit_append c p _ (hc p (by simp)),
        ih (by simp) (fun r hr => hc r (List.mem_cons_of_mem p hr))]

theorem trimPrefix1_of_not_mem (c : Char) (s : GoStr) (h : c ∉ s) :
    trimPrefix1 c s = s := by
  cases s with
  | nil => rfl
  | cons x xs =>
    have hx : ¬ x = c := fun he => h (he ▸ List.mem_cons_self x xs)
    simp [trimPrefix1, hx]

theorem storePair_none (m : QueryMap) (pair : GoStr) (h : splitFirst '=' pair = none) :
    storePair m pair = m := by
  unfold storePair
  rw [h]

theorem storePair_some (m : QueryMap) (pair : GoStr) (kv : GoStr × GoStr)
    (h : splitFirst '=' pair = some kv) :
    storePair m pair = qmInsert m kv.1 kv.2 := by
  unfold storePair
  rw [h]

theorem lastValueFor_cons (k : GoStr) (kv : GoStr × GoStr) (rest : List (GoStr × GoStr)) :
    lastValueFor k (kv :: rest) =
      match lastValueFor k rest with
      | some v => some v
      | none => if kv.1 = k then some kv.2 else none := rfl

theorem parsePairsInto_lookup (pairs : List GoStr) (m : QueryMap) (k : GoStr) :
    parsePairsInto m pairs k =
      match lastValueFor k (pairs.filterMap (splitFirst '=')) with
      | some v => some v
      | none => m k := by
  induction pairs generalizing m with
  | nil => rfl
  | cons p rest ih =>
    have hstep : parsePairsInto m (p :: rest) = parsePairsInto (storePair m p) rest := rfl
    rw [hstep, ih]
    cases hp : splitFirst '=' p with
    | none =>
      rw [storePair_none m p hp]
      simp only [List.filterMap_cons, hp]
    | some kv =>
      rw [storePair_some m p kv hp]
      simp only [List.filterMap_cons, hp, lastValueFor_cons]
      cases hl : lastValueFor k (rest.filterMap (splitFirst '=')) with
      | some v => rfl
      | none =>
        show qmInsert m kv.1 kv.2 k = _
        unfold qmInsert
        by_cases hk : kv.1 = k
        · rw [if_pos hk.symm, if_pos hk]
        · rw [if_neg (fun h2 : k = kv.1 => hk h2.symm), if_neg hk]

theorem specPairs_nil : specPairs [] = [] := rfl

/-- The string actually parsed by `parseQueryParams` is the segment lying
between the first and second question marks, and it never contains a
question mark itself. -/
theorem stripQuery_eq (s : GoStr) :
    stripQuery s = betweenFirstQs s ∧ '?' ∉ betweenFirstQs s := by
  by_cases hq : '?' ∈ s
  · cases hsf : splitFirst '?' s with
    | none => exact absurd hq ((splitFirst_none '?' s).mp hsf)
    | some pr =>
      obtain ⟨hseq, hpa⟩ := splitFirst_eq_some '?' hsf
      have hsplit : goSplit '?' s = pr.1 :: goSplit '?' pr.2 := by
        conv_lhs => rw [hseq]
        exact goSplit_append '?' pr.1 pr.2 hpa
      obtain ⟨hh, tt, he2⟩ := goSplit_exists_cons '?' pr.2
      have hlen : 1 < (goSplit '?' s).length := by
        rw [hsplit, he2]
        simp
      have hexp : betweenFirstQs s = ((splitFirst '?' pr.2).map Prod.fst).getD pr.2 := by
        unfold betweenFirstQs
        rw [hsf]
      have hbq : betweenFirstQs s = hh := by
        cases hsf2 : splitFirst '?' pr.2 with
        | none =>
          have hnm : goSplit '?' pr.2 = [pr.2] :=
            goSplit_of_not_mem '?' pr.2 ((splitFirst_none '?' pr.2).mp hsf2)
          rw [hnm] at he2
          injection he2 with h1 h2
          rw [hexp, hsf2, Option.map_none', Option.getD_none]
          exact h1
        | some pr2 =>
          obtain ⟨hseq2, hpa2⟩ := splitFirst_eq_some '?' hsf2
          have hsplit2 : goSplit '?' pr.2 = pr2.1 :: goSplit '?' pr2.2 := by
            conv_lhs => rw [hseq2]
            exact goSplit_append '?' pr2.1 pr2.2 hpa2
          rw [hsplit2] at he2
          injection he2 with h1 h2
          rw [hexp, hsf2, Option.map_some', Option.getD_some]
          exact h1
      have hgd : (goSplit '?' s).getD 1 [] = hh := by
        rw [hsplit, he2]
        rfl
      have hhmem : '?' ∉ hh :=
        not_mem_of_mem_goSplit '?' pr.2 hh (he2 ▸ List.mem_cons_self hh tt)
      constructor
      · unfold stripQuery
        rw [if_pos hq, if_pos hlen, hgd, hbq]
        exact trimPrefix1_of_not_mem '?' hh hhmem
      · rw [hbq]
        exact hhmem
  · have hbe : betweenFirstQs s = s := by
      unfold betweenFirstQs
      rw [(splitFirst_none '?' s).mpr hq]
    constructor
    · unfold stripQuery
      rw [if_neg hq, hbe]
      exact trimPrefix1_of_not_mem '?' s hq
    · rw [hbe]
      exact hq

/-- C6, amended: `parseQueryParams` never errors and its lookup semantics is
exactly: take the segment of the input that lies between the first question
mark and the second (the whole input when there is no question mark), split
it on ampersands, split every chunk containing an equals sign at its first
equals sign, silently discard the chunks without one, and let the last
occurrence of a duplicate key win; empty input yields the empty mapping.
The original claim's "the entire remainder after the first question mark is
parsed" is the part that fails. -/
theorem c6_parse_query_spec (s k : GoStr) :
    parseQueryParams s k = lastValueFor k (specPairs (betweenFirstQs s)) := by
  by_cases hs : s = []
  · subst hs
    rfl
  · unfold parseQueryParams
    rw [if_neg hs]
    show (if stripQuery s = [] then emptyQM
      else parsePairsInto emptyQM (goSplit '&' (stripQuery s))) k = _
    rw [(stripQuery_eq s).1]
    by_cases hb : betweenFirstQs s = []
    · rw [if_pos hb, hb, specPairs_nil]
      rfl
    · rw [if_neg hb, parsePairsInto_lookup]
      show (match lastValueFor k (specPairs (betweenFirstQs s)) with
        | some v => some v
        | none => emptyQM k) = _
      cases lastValueFor k (specPairs (betweenFirstQs s)) <;> rfl

/-- C6 counterexample: on the input "?a=1?b=2" the code stops parsing at the
second question mark and yields a ↦ "1", while the claim's "entire
remainder" reading demands a ↦ "1?b=2". -/
theorem c6_counterexample :
    parseQueryParams (gs "?a=1?b=2") (gs "a") = some (gs "1") ∧
    lastValueFor (gs "a") (specPairs (claimStripC6 (gs "?a=1?b=2"))) = some (gs "1?b=2") ∧
    parseQueryParams (gs "?a=1?b=2") (gs "a") ≠
      lastValueFor (gs "a") (specPairs (claimStripC6 (gs "?a=1?b=2"))) := by
  decide

/-- The all-digits core of Go `strconv.Atoi`: the numeric value when every
character is a decimal digit and there is at least one. -/
def digitsVal (s : GoStr) : Option Nat :=
  if s = [] then none
  else
    s.foldl (fun acc c =>
      match acc with
      | some n => if '0' ≤ c ∧ c ≤ '9' then some (n * 10 + (c.toNat - 48)) else none
      | none => none) (some 0)

/-- Go `strconv.Atoi`: an optional sign followed by at least one decimal
digit; any other shape, and any value outside the signed 64-bit range, is an
error (`none`). -/
def atoi (s : GoStr) : Option Int :=
  match s with
  | [] => none
  | c :: rest =>
    if c = '+' then
      (digitsVal rest).bind (fun n =>
        if -(2 ^ 63) ≤ (n : Int) ∧ (n : Int) ≤ 2 ^ 63 - 1 then some (n : Int) else none)
    else if c = '-' then
      (digitsVal rest).bind (fun n =>
        if -(2 ^ 63) ≤ -(n : Int) ∧ -(n : Int) ≤ 2 ^ 63 - 1 then some (-(n : Int)) else none)
    else
      (digitsVal (c :: rest)).bind (fun n =>
        if -(2 ^ 63) ≤ (n : Int) ∧ (n : Int) ≤ 2 ^ 63 - 1 then some (n : Int) else none)

/-- The positivity filter `ParsePageFromQuery` applies to a parsed value. -/
def positivePage (o : Option Int) : Option Int :=
  match o with
  | some page => if page > 0 then some page else none
  | none => none

/-- The per-chunk test of `ParsePageFromQuery`: a chunk with an equals sign
whose key is the page parameter and whose value parses to a positive number
yields that number; anything else yields nothing and the scan goes on. -/
def pageOfParam (paramName param : GoStr) : Option Int :=
  match splitFirst '=' param with
  | some kv => if kv.1 = paramName then positivePage (atoi kv.2) else none
  | none => none

/-- `ParsePageFromQuery` from the source: extracts the requested page number
from a query string, defaulting the parameter name to "page" and the result
to 1; the first chunk carrying a valid positive value wins. -/
def ParsePageFromQuery (queryString paramName : GoStr) : Int :=
  let paramName2 := if paramName = [] then gs "page" else paramName
  if queryString = [] then 1
  else
    match (goSplit '&' (trimPrefix1 '?' queryString)).findSome? (pageOfParam paramName2) with
    | some page => page
    | none => 1

/-- One step of the parameter loop of `ParseSortFromQuery`, threading the
`(sortBy, sortOrder)` state. -/
def sortStep (sortParam orderParam : GoStr) (st : GoStr × GoStr) (param : GoStr) :
    GoStr × GoStr :=
  match splitFirst '=' param with
  | some kv =>
    if kv.1 = sortParam then (kv.2, st.2)
    else if kv.1 = orderParam then
      if kv.2 = gs "desc" then (st.1, gs "desc") else st
    else st
  | none => st

/-- `ParseSortFromQuery` from the source: extracts the sort field and order
from a query string; the order starts as "asc" and only an occurrence of the
order parameter with the exact value "desc" switches it. -/
def ParseSortFromQuery (queryString sortParam orderParam : GoStr) : GoStr × GoStr :=
  let sortParam2 := if sortParam = [] then gs "sort_by" else sortParam
  let orderParam2 := if orderParam = [] then gs "sort_order" else orderParam
  if queryString = [] then ([], gs "asc")
  else
    (goSplit '&' (trimPrefix1 '?' queryString)).foldl
      (sortStep sortParam2 orderParam2) ([], gs "asc")

/-- `generateSortLinks` from the source: one URL per header; a nil or
disabled sorting config yields a slice of empty strings of the same length.
Each link carries the sort parameter set to the column, the order parameter
set to the toggled order, and every entry of the current query parameters
whose key is none of the sort parameter, the order parameter and "page". -/
def generateSortLinks (headers : List GoStr) (sorting : Option Sorting)
    (currentQueryParams : List (GoStr × GoStr)) : List GoStr :=
  match sorting with
  | none => headers.map (fun _ => [])
  | some s =>
    if s.Enabled = false then headers.map (fun _ => [])
    else
      let sortParam := if s.QueryParam = [] then gs "sort_by" else s.QueryParam
      let orderParam := if s.OrderParam = [] then gs "sort_order" else s.OrderParam
      headers.map (fun header =>
        let sortOrder :=
          if s.SortBy = header ∧ s.SortOrder = gs "asc" then gs "desc" else gs "asc"
        let params :=
          pairStr sortParam header :: pairStr orderParam sortOrder ::
            (currentQueryParams.filter (fun kv =>
              kv.1 ≠ sortParam ∧ kv.1 ≠ orderParam ∧ kv.1 ≠ gs "page")).map
              (fun kv => pairStr kv.1 kv.2)
        buildURL s.BaseURL (goJoin '&' params))

theorem positivePage_none : positivePage none = none := rfl

theorem positivePage_some (p : Int) :
    positivePage (some p) = if p > 0 then some p else none := rfl

theorem pageOfParam_none_eq (pn param : GoStr) (h : splitFirst '=' param = none) :
    pageOfParam pn param = none := by
  unfold pageOfParam
  rw [h]

theorem pageOfParam_some_eq (pn param : GoStr) (kv : GoStr × GoStr)
    (h : splitFirst '=' param = some kv) :
    pageOfParam pn param = if kv.1 = pn then positivePage (atoi kv.2) else none := by
  unfold pageOfParam
  rw [h]

theorem pageOfParam_pos (pn param : GoStr) (page : Int)
    (h : pageOfParam pn param = some page) : 1 ≤ page := by
  cases hsf : splitFirst '=' param with
  | none =>
    rw [pageOfParam_none_eq pn param hsf] at h
    exact Option.noConfusion h
  | some kv =>
    rw [pageOfParam_some_eq pn param kv hsf] at h
    by_cases h1 : kv.1 = pn
    · rw [if_pos h1] at h
      cases ha : atoi kv.2 with
      | none =>
        rw [ha, positivePage_none] at h
        exact Option.noConfusion h
      | some p0 =>
        rw [ha, positivePage_some] at h
        by_cases h2 : p0 > 0
        · rw [if_pos h2] at h
          have h3 := Option.some.inj h
          omega
        · rw [if_neg h2] at h
          exact Option.noConfusion h
    · rw [if_neg h1] at h
      exact Option.noConfusion h

theorem findSome?_eq_some_imp {α β : Type} (f : α → Option β) (l : List α) (b : β)
    (h : l.findSome? f = some b) : ∃ a ∈ l, f a = some b := by
  induction l with
  | nil => exact Option.noConfusion h
  | cons x xs ih =>
    cases hf : f x with
    | some v =>
      refine ⟨x, List.mem_cons_self x xs, ?_⟩
      rw [hf]
      rw [List.findSome?_cons, hf] at h
      exact h
    | none =>
      rw [List.findSome?_cons, hf] at h
      obtain ⟨a, ha, hfa⟩ := ih h
      exact ⟨a, List.mem_cons_of_mem x ha, hfa⟩

theorem findSome?_eq_none_of {α β : Type} (f : α → Option β) (l : List α)
    (h : ∀ a ∈ l, f a = none) : l.findSome? f = none := by
  induction l with
  | nil => rfl
  | cons x xs ih =>
    rw [List.findSome?_cons, h x (List.mem_cons_self x xs)]
    exact ih (fun a ha => h a (List.mem_cons_of_mem x ha))

theorem sortStep_eq_none (sp op : GoStr) (st : GoStr × GoStr) (param : GoStr)
    (h : splitFirst '=' param = none) : sortStep sp op st param = st := by
  unfold sortStep
  rw [h]

theorem sortStep_eq_some (sp op : GoStr) (st : GoStr × GoStr) (param : GoStr)
    (kv : GoStr × GoStr) (h : splitFirst '=' param = some kv) :
    sortStep sp op st param =
      if kv.1 = sp then (kv.2, st.2)
      else if kv.1 = op then
        if kv.2 = gs "desc" then (st.1, gs "desc") else st
      else st := by
  unfold sortStep
  rw [h]

theorem sortStep_snd (sp op : GoStr) (st : GoStr × GoStr) (param : GoStr) :
    (sortStep sp op st param).2 = st.2 ∨ (sortStep sp op st param).2 = gs "desc" := by
  cases hsf : splitFirst '=' param with
  | none =>
    rw [sortStep_eq_none sp op st param hsf]
    exact Or.inl rfl
  | some kv =>
    rw [sortStep_eq_some sp op st param kv hsf]
    split_ifs <;> simp

theorem sortFold_snd_cases (sp op : GoStr) (l : List GoStr) (st : GoStr × GoStr) :
    (l.foldl (sortStep sp op) st).2 = st.2 ∨ (l.foldl (sortStep sp op) st).2 = gs "desc" := by
  induction l generalizing st with
  | nil => exact Or.inl rfl
  | cons param rest ih =>
    rw [List.foldl_cons]
    rcases ih (sortStep sp op st param) with h | h
    · rcases sortStep_snd sp op st param with h2 | h2
      · exact Or.inl (h.trans h2)
      · exact Or.inr (h.trans h2)
    · exact Or.inr h

theorem sortFold_snd_eq (sp op : GoStr) (l : List GoStr) (st : GoStr × GoStr)
    (h : ∀ kv ∈ l.filterMap (splitFirst '='), kv.1 = op → kv.2 ≠ gs "desc") :
    (l.foldl (sortStep sp op) st).2 = st.2 := by
  induction l generalizing st with
  | nil => rfl
  | cons param rest ih =>
    rw [List.foldl_cons]
    have hrest : ∀ kv ∈ rest.filterMap (splitFirst '='), kv.1 = op → kv.2 ≠ gs "desc" := by
      intro kv hkv
      obtain ⟨a, ha, hfa⟩ := List.mem_filterMap.mp hkv
      exact h kv (List.mem_filterMap.mpr ⟨a, List.mem_cons_of_mem param ha, hfa⟩)
    rw [ih _ hrest]
    cases hsf : splitFirst '=' param with
    | none => rw [sortStep_eq_none sp op st param hsf]
    | some kv =>
      rw [sortStep_eq_some sp op st param kv hsf]
      have hkv : kv ∈ (param :: rest).filterMap (splitFirst '=') :=
        List.mem_filterMap.mpr ⟨param, List.mem_cons_self param rest, hsf⟩
      by_cases h1 : kv.1 = sp
      · rw [if_pos h1]
      · rw [if_neg h1]
        by_cases h2 : kv.1 = op
        · rw [if_pos h2, if_neg (h kv hkv h2)]
        · rw [if_neg h2]

theorem sortFold_fst_eq (sp op : GoStr) (l : List GoStr) (st : GoStr × GoStr)
    (h : ∀ kv ∈ l.filterMap (splitFirst '='), kv.1 ≠ sp) :
    (l.foldl (sortStep sp op) st).1 = st.1 := by
  induction l generalizing st with
  | nil => rfl
  | cons param rest ih =>
    rw [List.foldl_cons]
    have hrest : ∀ kv ∈ rest.filterMap (splitFirst '='), kv.1 ≠ sp := by
      intro kv hkv
      obtain ⟨a, ha, hfa⟩ := List.mem_filterMap.mp hkv
      exact h kv (List.mem_filterMap.mpr ⟨a, List.mem_cons_of_mem param ha, hfa⟩)
    rw [ih _ hrest]
    cases hsf : splitFirst '=' param with
    | none => rw [sortStep_eq_none sp op st param hsf]
    | some kv =>
      rw [sortStep_eq_some sp op st param kv hsf]
      have hkv : kv ∈ (param :: rest).filterMap (splitFirst '=') :=
        List.mem_filterMap.mpr ⟨param, List.mem_cons_self param rest, hsf⟩
      rw [if_neg (h kv hkv)]
      by_cases h2 : kv.1 = op
      · rw [if_pos h2]
        by_cases h3 : kv.2 = gs "desc"
        · rw [if_pos h3]
        · rw [if_neg h3]
      · rw [if_neg h2]

theorem ParsePageFromQuery_expand (qs pname : GoStr) :
    ParsePageFromQuery qs pname =
      if qs = [] then 1
      else
        match (goSplit '&' (trimPrefix1 '?' qs)).findSome?
            (pageOfParam (if pname = [] then gs "page" else pname)) with
        | some page => page
        | none => 1 := rfl

theorem ParseSortFromQuery_expand (qs sp op : GoStr) :
    ParseSortFromQuery qs sp op =
      if qs = [] then ([], gs "asc")
      else
        (goSplit '&' (trimPrefix1 '?' qs)).foldl
          (sortStep (if sp = [] then gs "sort_by" else sp)
            (if op = [] then gs "sort_order" else op)) ([], gs "asc") := rfl

/-- C9: query-state inputs are normalized, never rejected: the parsed page is
always at least 1 and is exactly 1 whenever every occurrence of the page
parameter is non-numeric, zero or negative (in particular when it is
missing); the parsed sort order is always "asc" or "desc" and is "asc"
whenever no occurrence of the order parameter carries the exact value "desc"
(in particular when it is missing).  Both functions are total, so neither
ever errors. -/
theorem c9_normalized_inputs (qs pname sp op : GoStr) :
    (1 ≤ ParsePageFromQuery qs pname) ∧
    ((∀ kv ∈ specPairs (trimPrefix1 '?' qs),
        kv.1 = (if pname = [] then gs "page" else pname) → (atoi kv.2).getD 0 ≤ 0) →
      ParsePageFromQuery qs pname = 1) ∧
    ((ParseSortFromQuery qs sp op).2 = gs "asc" ∨
      (ParseSortFromQuery qs sp op).2 = gs "desc") ∧
    ((∀ kv ∈ specPairs (trimPrefix1 '?' qs),
        kv.1 = (if op = [] then gs "sort_order" else op) → kv.2 ≠ gs "desc") →
      (ParseSortFromQuery qs sp op).2 = gs "asc") := by
  refine ⟨?_, ?_, ?_, ?_⟩
  · rw [ParsePageFromQuery_expand]
    by_cases hq : qs = []
    · rw [if_pos hq]
    · rw [if_neg hq]
      cases hfind : (goSplit '&' (trimPrefix1 '?' qs)).findSome?
          (pageOfParam (if pname = [] then gs "page" else pname)) with
      | some page =>
        obtain ⟨a, _, hfa⟩ := findSome?_eq_some_imp _ _ _ hfind
        exact pageOfParam_pos _ _ _ hfa
      | none => exact le_refl 1
  · intro hyp
    rw [ParsePageFromQuery_expand]
    by_cases hq : qs = []
    · rw [if_pos hq]
    · rw [if_neg hq]
      have hnone : (goSplit '&' (trimPrefix1 '?' qs)).findSome?
          (pageOfParam (if pname = [] then gs "page" else pname)) = none := by
        apply findSome?_eq_none_of
        intro param hparam
        cases hsf : splitFirst '=' param with
        | none => exact pageOfParam_none_eq _ param hsf
        | some kv =>
          rw [pageOfParam_some_eq _ param kv hsf]
          by_cases h1 : kv.1 = (if pname = [] then gs "page" else pname)
          · rw [if_pos h1]
            have hmem : kv ∈ specPairs (trimPrefix1 '?' qs) :=
              List.mem_filterMap.mpr ⟨param, hparam, hsf⟩
            have hle := hyp kv hmem h1
            cases ha : atoi kv.2 with
            | none => rw [positivePage_none]
            | some p0 =>
              rw [ha] at hle
              simp only [Option.getD_some] at hle
              rw [positivePage_some, if_neg (by omega)]
          · rw [if_neg h1]
      rw [hnone]
  · rw [ParseSortFromQuery_expand]
    by_cases hq : qs = []
    · rw [if_pos hq]
      exact Or.inl rfl
    · rw [if_neg hq]
      exact sortFold_snd_cases _ _ _ _
  · intro hyp
    rw [ParseSortFromQuery_expand]
    by_cases hq : qs = []
    · rw [if_pos hq]
    · rw [if_neg hq]
      exact sortFold_snd_eq _ _ _ _ hyp

/-- Witness for C9 on a query whose page parameter occurs only with a
non-numeric and a zero value and whose order parameter is not "desc". -/
theorem c9_witness :
    (1 ≤ ParsePageFromQuery (gs "?page=abc&page=0&sort_order=up") []) ∧
    ParsePageFromQuery (gs "?page=abc&page=0&sort_order=up") [] = 1 ∧
    ((ParseSortFromQuery (gs "?page=abc&page=0&sort_order=up") [] []).2 = gs "asc" ∨
      (ParseSortFromQuery (gs "?page=abc&page=0&sort_order=up") [] []).2 = gs "desc") ∧
    (ParseSortFromQuery (gs "?page=abc&page=0&sort_order=up") [] []).2 = gs "asc" := by
  obtain ⟨h1, h2, h3, h4⟩ :=
    c9_normalized_inputs (gs "?page=abc&page=0&sort_order=up") [] [] []
  exact ⟨h1, h2 (by decide), h3, h4 (by decide)⟩

/-- The length identity behind C10, shared by the later link lemmas. -/
theorem generateSortLinks_length (headers : List GoStr) (sorting : Option Sorting)
    (qp : List (GoStr × GoStr)) :
    (generateSortLinks headers sorting qp).length = headers.length := by
  cases sorting with
  | none => simp [generateSortLinks]
  | some s =>
    simp only [generateSortLinks]
    split <;> simp

/-- C10: `generateSortLinks` always returns exactly one link per header —
also for a nil or disabled sorting config — so the template's per-header
lookup `SortLinks[index]` is always in bounds. -/
theorem c10_sortLinks_length (headers : List GoStr) (sorting : Option Sorting)
    (qp : List (GoStr × GoStr)) :
    (generateSortLinks headers sorting qp).length = headers.length :=
  generateSortLinks_length headers sorting qp

theorem trimPrefix1_cons_self (c : Char) (s : GoStr) : trimPrefix1 c (c :: s) = s := by
  simp [trimPrefix1]

theorem not_mem_pairStr (c : Char) (k v : GoStr) (hc : ¬ c = '=') (hk : c ∉ k) (hv : c ∉ v) :
    c ∉ pairStr k v := by
  unfold pairStr
  intro hmem
  rcases List.mem_append.mp hmem with h | h
  · exact hk h
  · rcases List.mem_cons.mp h with h2 | h2
    · exact hc h2
    · exact hv h2

theorem getD_map_of_lt {α β : Type} (f : α → β) (l : List α) (i : Nat) (hi : i < l.length)
    (d : β) (d2 : α) : (l.map f).getD i d = f (l.getD i d2) := by
  induction l generalizing i with
  | nil => exact absurd hi (by simp)
  | cons x xs ih =>
    cases i with
    | zero => rfl
    | succ n =>
      simp only [List.map_cons, List.getD_cons_succ]
      exact ih n (by simpa using hi)

/-- Explicit form of `generateSortLinks` on an enabled config. -/
theorem generateSortLinks_enabled (headers : List GoStr) (s : Sorting)
    (qp : List (GoStr × GoStr)) (hen : s.Enabled = true) :
    generateSortLinks headers (some s) qp =
      headers.map (fun header =>
        buildURL s.BaseURL (goJoin '&'
          (pairStr (if s.QueryParam = [] then gs "sort_by" else s.QueryParam) header ::
           pairStr (if s.OrderParam = [] then gs "sort_order" else s.OrderParam)
             (if s.SortBy = header ∧ s.SortOrder = gs "asc" then gs "desc" else gs "asc") ::
           (qp.filter (fun kv =>
              kv.1 ≠ (if s.QueryParam = [] then gs "sort_by" else s.QueryParam) ∧
              kv.1 ≠ (if s.OrderParam = [] then gs "sort_order" else s.OrderParam) ∧
              kv.1 ≠ gs "page")).map (fun kv => pairStr kv.1 kv.2)))) := by
  have h1 : generateSortLinks headers (some s) qp =
      if s.Enabled = false then headers.map (fun _ => [])
      else
        headers.map (fun header =>
          buildURL s.BaseURL (goJoin '&'
            (pairStr (if s.QueryParam = [] then gs "sort_by" else s.QueryParam) header ::
             pairStr (if s.OrderParam = [] then gs "sort_order" else s.OrderParam)
               (if s.SortBy = header ∧ s.SortOrder = gs "asc" then gs "desc" else gs "asc") ::
             (qp.filter (fun kv =>
                kv.1 ≠ (if s.QueryParam = [] then gs "sort_by" else s.QueryParam) ∧
                kv.1 ≠ (if s.OrderParam = [] then gs "sort_order" else s.OrderParam) ∧
                kv.1 ≠ gs "page")).map (fun kv => pairStr kv.1 kv.2)))) := rfl
  rw [h1, if_neg (by simp [hen])]

/-- Core of the sort-link round trip: parsing the query string of a link
built from an empty base recovers the linked column and the toggled order. -/
theorem parse_sort_link_aux (sp2 op2 base hdr ord : GoStr)
    (preservedKVs : List (GoStr × GoStr))
    (hbase : base = [])
    (hsp1 : '&' ∉ sp2) (hspe : '=' ∉ sp2)
    (hop1 : '&' ∉ op2) (hope : '=' ∉ op2)
    (hneq : sp2 ≠ op2)
    (hhead : '&' ∉ hdr)
    (hord : ord = gs "desc" ∨ ord = gs "asc")
    (hkvs : ∀ kv ∈ preservedKVs, '&' ∉ kv.1 ∧ '=' ∉ kv.1 ∧ '&' ∉ kv.2 ∧
        kv.1 ≠ sp2 ∧ kv.1 ≠ op2) :
    (goSplit '&' (trimPrefix1 '?'
        (buildURL base (goJoin '&' (pairStr sp2 hdr :: pairStr op2 ord ::
          preservedKVs.map (fun kv => pairStr kv.1 kv.2)))))).foldl
      (sortStep sp2 op2) ([], gs "asc") = (hdr, ord) := by
  subst hbase
  have hb : buildURL [] (goJoin '&' (pairStr sp2 hdr :: pairStr op2 ord ::
      preservedKVs.map (fun kv => pairStr kv.1 kv.2))) =
      '?' :: goJoin '&' (pairStr sp2 hdr :: pairStr op2 ord ::
        preservedKVs.map (fun kv => pairStr kv.1 kv.2)) := by
    unfold buildURL
    rw [if_pos rfl]
  rw [hb, trimPrefix1_cons_self]
  have hparts : goSplit '&' (goJoin '&' (pairStr sp2 hdr :: pairStr op2 ord ::
      preservedKVs.map (fun kv => pairStr kv.1 kv.2))) =
      pairStr sp2 hdr :: pairStr op2 ord ::
        preservedKVs.map (fun kv => pairStr kv.1 kv.2) := by
    apply goSplit_goJoin
    · simp
    · intro p hp
      rcases List.mem_cons.mp hp with rfl | hp2
      · exact not_mem_pairStr '&' sp2 hdr (by decide) hsp1 hhead
      rcases List.mem_cons.mp hp2 with rfl | hp3
      · refine not_mem_pairStr '&' op2 ord (by decide) hop1 ?_
        rcases hord with h | h <;> rw [h] <;> decide
      · obtain ⟨kv, hkv, rfl⟩ := List.mem_map.mp hp3
        obtain ⟨hk1, hk2, hk3, _, _⟩ := hkvs kv hkv
        exact not_mem_pairStr '&' kv.1 kv.2 (by decide) hk1 hk3
  rw [hparts, List.foldl_cons, List.foldl_cons]
  have hstep1 : sortStep sp2 op2 ([], gs "asc") (pairStr sp2 hdr) = (hdr, gs "asc") := by
    have hsf : splitFirst '=' (pairStr sp2 hdr) = some (sp2, hdr) :=
      splitFirst_append '=' sp2 hdr hspe
    rw [sortStep_eq_some sp2 op2 _ _ (sp2, hdr) hsf, if_pos rfl]
  rw [hstep1]
  have hstep2 : sortStep sp2 op2 (hdr, gs "asc") (pairStr op2 ord) = (hdr, ord) := by
    have hsf : splitFirst '=' (pairStr op2 ord) = some (op2, ord) :=
      splitFirst_append '=' op2 ord hope
    rw [sortStep_eq_some sp2 op2 _ _ (op2, ord) hsf]
    show (if op2 = sp2 then (ord, gs "asc")
      else if op2 = op2 then
        (if ord = gs "desc" then (hdr, gs "desc") else (hdr, gs "asc"))
      else (hdr, gs "asc")) = (hdr, ord)
    rw [if_neg (fun h2 : op2 = sp2 => hneq h2.symm), if_pos rfl]
    rcases hord with h | h
    · rw [if_pos h, h]
    · rw [h, if_neg (by decide)]
  rw [hstep2]
  have hside : ∀ kv' ∈ (preservedKVs.map (fun kv => pairStr kv.1 kv.2)).filterMap
      (splitFirst '='), kv'.1 ≠ sp2 ∧ kv'.1 ≠ op2 := by
    intro kv' hm
    obtain ⟨part, hpart, hsf⟩ := List.mem_filterMap.mp hm
    obtain ⟨kv, hkv, rfl⟩ := List.mem_map.mp hpart
    obtain ⟨hk1, hk2, hk3, hk4, hk5⟩ := hkvs kv hkv
    have hps : splitFirst '=' (pairStr kv.1 kv.2) = some (kv.1, kv.2) :=
      splitFirst_append '=' kv.1 kv.2 hk2
    rw [hps] at hsf
    have h := Option.some.inj hsf
    rw [← h]
    exact ⟨hk4, hk5⟩
  rw [Prod.ext_iff]
  constructor
  · exact sortFold_fst_eq sp2 op2 _ _ (fun kv' hm => (hside kv' hm).1)
  · exact sortFold_snd_eq sp2 op2 _ _ (fun kv' hm h2 => absurd h2 (hside kv' hm).2)

/-- Parsing the sort link generated for the `i`-th header (over an empty base
URL, with well-formed parameter names and preserved pairs) yields exactly
that header as the sort field and the toggled order as the sort order. -/
theorem parse_generated_sort_link (headers : List GoStr) (s : Sorting)
    (qp : List (GoStr × GoStr)) (i : Nat) (hi : i < headers.length)
    (hen : s.Enabled = true) (hbase : s.BaseURL = [])
    (hsp1 : '&' ∉ (if s.QueryParam = [] then gs "sort_by" else s.QueryParam))
    (hspe : '=' ∉ (if s.QueryParam = [] then gs "sort_by" else s.QueryParam))
    (hop1 : '&' ∉ (if s.OrderParam = [] then gs "sort_order" else s.OrderParam))
    (hope : '=' ∉ (if s.OrderParam = [] then gs "sort_order" else s.OrderParam))
    (hneq : (if s.QueryParam = [] then gs "sort_by" else s.QueryParam) ≠
            (if s.OrderParam = [] then gs "sort_order" else s.OrderParam))
    (hhead : '&' ∉ headers.getD i [])
    (hqp : ∀ kv ∈ qp, '&' ∉ kv.1 ∧ '=' ∉ kv.1 ∧ '&' ∉ kv.2) :
    ParseSortFromQuery ((generateSortLinks headers (some s) qp).getD i [])
        s.QueryParam s.OrderParam =
      (headers.getD i [],
       if s.SortBy = headers.getD i [] ∧ s.SortOrder = gs "asc" then gs "desc"
       else gs "asc") := by
  have hlink : (generateSortLinks headers (some s) qp).getD i [] =
      buildURL s.BaseURL (goJoin '&'
        (pairStr (if s.QueryParam = [] then gs "sort_by" else s.QueryParam)
           (headers.getD i []) ::
         pairStr (if s.OrderParam = [] then gs "sort_order" else s.OrderParam)
           (if s.SortBy = headers.getD i [] ∧ s.SortOrder = gs "asc" then gs "desc"
            else gs "asc") ::
         (qp.filter (fun kv =>
            kv.1 ≠ (if s.QueryParam = [] then gs "sort_by" else s.QueryParam) ∧
            kv.1 ≠ (if s.OrderParam = [] then gs "sort_order" else s.OrderParam) ∧
            kv.1 ≠ gs "page")).map (fun kv => pairStr kv.1 kv.2))) := by
    rw [generateSortLinks_enabled headers s qp hen]
    exact getD_map_of_lt _ headers i hi [] []
  rw [ParseSortFromQuery_expand, hlink, hbase]
  have hne : buildURL ([] : GoStr) (goJoin '&'
      (pairStr (if s.QueryParam = [] then gs "sort_by" else s.QueryParam)
         (headers.getD i []) ::
       pairStr (if s.OrderParam = [] then gs "sort_order" else s.OrderParam)
         (if s.SortBy = headers.getD i [] ∧ s.SortOrder = gs "asc" then gs "desc"
          else gs "asc") ::
       (qp.filter (fun kv =>
          kv.1 ≠ (if s.QueryParam = [] then gs "sort_by" else s.QueryParam) ∧
          kv.1 ≠ (if s.OrderParam = [] then gs "sort_order" else s.OrderParam) ∧
          kv.1 ≠ gs "page")).map (fun kv => pairStr kv.1 kv.2))) ≠ [] := by
    unfold buildURL
    rw [if_pos rfl]
    exact List.cons_ne_nil _ _
  rw [if_neg hne]
  apply parse_sort_link_aux _ _ _ _ _ _ rfl hsp1 hspe hop1 hope hneq hhead
  · by_cases hcond : s.SortBy = headers.getD i [] ∧ s.SortOrder = gs "asc"
    · rw [if_pos hcond]
      exact Or.inl rfl
    · rw [if_neg hcond]
      exact Or.inr rfl
  · intro kv hkv
    obtain ⟨hin, hpred⟩ := List.mem_filter.mp hkv
    have hpred2 : kv.1 ≠ (if s.QueryParam = [] then gs "sort_by" else s.QueryParam) ∧
        kv.1 ≠ (if s.OrderParam = [] then gs "sort_order" else s.OrderParam) ∧
        kv.1 ≠ gs "page" := by simpa using hpred
    obtain ⟨ha, hb2, hc⟩ := hqp kv hin
    exact ⟨ha, hb2, hc, hpred2.1, hpred2.2.1⟩

/-- C3: the sort link generated for a column sets the order parameter to
"desc" exactly when that column is the active sort column and the current
order is "asc"; in every other case it sets "asc" (read back from a link
built over an empty base URL, with ampersand- and equals-free parameter
names and preserved pairs). -/
theorem c3_sort_toggle_rule (headers : List GoStr) (s : Sorting)
    (qp : List (GoStr × GoStr)) (i : Nat) (hi : i < headers.length)
    (hen : s.Enabled = true) (hbase : s.BaseURL = [])
    (hsp1 : '&' ∉ (if s.QueryParam = [] then gs "sort_by" else s.QueryParam))
    (hspe : '=' ∉ (if s.QueryParam = [] then gs "sort_by" else s.QueryParam))
    (hop1 : '&' ∉ (if s.OrderParam = [] then gs "sort_order" else s.OrderParam))
    (hope : '=' ∉ (if s.OrderParam = [] then gs "sort_order" else s.OrderParam))
    (hneq : (if s.QueryParam = [] then gs "sort_by" else s.QueryParam) ≠
            (if s.OrderParam = [] then gs "sort_order" else s.OrderParam))
    (hhead : '&' ∉ headers.getD i [])
    (hqp : ∀ kv ∈ qp, '&' ∉ kv.1 ∧ '=' ∉ kv.1 ∧ '&' ∉ kv.2) :
    ((ParseSortFromQuery ((generateSortLinks headers (some s) qp).getD i [])
        s.QueryParam s.OrderParam).2 = gs "desc" ↔
      (s.SortBy = headers.getD i [] ∧ s.SortOrder = gs "asc")) ∧
    (ParseSortFromQuery ((generateSortLinks headers (some s) qp).getD i [])
        s.QueryParam s.OrderParam).2 =
      (if s.SortBy = headers.getD i [] ∧ s.SortOrder = gs "asc" then gs "desc"
       else gs "asc") := by
  have hm := parse_generated_sort_link headers s qp i hi hen hbase hsp1 hspe hop1 hope
    hneq hhead hqp
  constructor
  · rw [hm]
    show (if s.SortBy = headers.getD i [] ∧ s.SortOrder = gs "asc" then gs "desc"
      else gs "asc") = gs "desc" ↔ _
    by_cases hc : s.SortBy = headers.getD i [] ∧ s.SortOrder = gs "asc"
    · rw [if_pos hc]
      exact ⟨fun _ => hc, fun _ => rfl⟩
    · rw [if_neg hc]
      exact ⟨fun h => absurd h (by decide), fun h => absurd h hc⟩
  · rw [hm]

/-- Witness for C3: a two-column table sorted ascending on "Name"; the Name
link toggles to "desc" while the Age link sets "asc". -/
theorem c3_witness :
    ((ParseSortFromQuery
        ((generateSortLinks [gs "Name", gs "Age"]
          (some { Enabled := true, SortBy := gs "Name", SortOrder := gs "asc",
                  BaseURL := [], QueryParam := [], OrderParam := [] })
          [(gs "search", gs "x")]).getD 0 []) [] []).2 = gs "desc" ↔
      (gs "Name" = ([gs "Name", gs "Age"] : List GoStr).getD 0 [] ∧ gs "asc" = gs "asc")) ∧
    (ParseSortFromQuery
        ((generateSortLinks [gs "Name", gs "Age"]
          (some { Enabled := true, SortBy := gs "Name", SortOrder := gs "asc",
                  BaseURL := [], QueryParam := [], OrderParam := [] })
          [(gs "search", gs "x")]).getD 0 []) [] []).2 =
      (if gs "Name" = ([gs "Name", gs "Age"] : List GoStr).getD 0 [] ∧ gs "asc" = gs "asc"
       then gs "desc" else gs "asc") :=
  c3_sort_toggle_rule [gs "Name", gs "Age"]
    { Enabled := true, SortBy := gs "Name", SortOrder := gs "asc",
      BaseURL := [], QueryParam := [], OrderParam := [] }
    [(gs "search", gs "x")] 0 (by decide) (by decide) (by decide) (by decide) (by decide)
    (by decide) (by decide) (by decide) (by decide) (by decide)

/-- C8: the per-column sort toggle is a 2-cycle.  Starting from the state
sorting column `C` ascending, following `C`'s generated link yields the
state `(C, "desc")` — not the original order — and following the link
generated from that state yields `(C, "asc")` again: the original order
returns only after exactly two toggles. -/
theorem c8_toggle_two_cycle (headers : List GoStr) (C : GoStr)
    (qp : List (GoStr × GoStr)) (i : Nat) (hi : i < headers.length)
    (hC : headers.getD i [] = C) (hCamp : '&' ∉ C)
    (hqp : ∀ kv ∈ qp, '&' ∉ kv.1 ∧ '=' ∉ kv.1 ∧ '&' ∉ kv.2)
    (st1 st2 : GoStr × GoStr)
    (hst1 : st1 = ParseSortFromQuery
      ((generateSortLinks headers
        (some { Enabled := true, SortBy := C, SortOrder := gs "asc", BaseURL := [],
                QueryParam := gs "sort_by", OrderParam := gs "sort_order" }) qp).getD i [])
      (gs "sort_by") (gs "sort_order"))
    (hst2 : st2 = ParseSortFromQuery
      ((generateSortLinks headers
        (some { Enabled := true, SortBy := st1.1, SortOrder := st1.2, BaseURL := [],
                QueryParam := gs "sort_by", OrderParam := gs "sort_order" }) qp).getD i [])
      (gs "sort_by") (gs "sort_order")) :
    st1 = (C, gs "desc") ∧ st1.2 ≠ gs "asc" ∧ st2 = (C, gs "asc") := by
  have h1 : st1 = (C, gs "desc") := by
    rw [hst1, parse_generated_sort_link headers
      { Enabled := true, SortBy := C, SortOrder := gs "asc", BaseURL := [],
        QueryParam := gs "sort_by", OrderParam := gs "sort_order" } qp i hi rfl rfl
      (of_decide_eq_true rfl) (of_decide_eq_true rfl) (of_decide_eq_true rfl)
      (of_decide_eq_true rfl) (of_decide_eq_true rfl) (hC ▸ hCamp) hqp]
    rw [hC]
    rw [if_pos ⟨rfl, rfl⟩]
  refine ⟨h1, ?_, ?_⟩
  · rw [h1]
    exact of_decide_eq_true rfl
  · rw [hst2, h1, parse_generated_sort_link headers
      { Enabled := true, SortBy := ((C, gs "desc") : GoStr × GoStr).1,
        SortOrder := ((C, gs "desc") : GoStr × GoStr).2, BaseURL := [],
        QueryParam := gs "sort_by", OrderParam := gs "sort_order" } qp i hi rfl rfl
      (of_decide_eq_true rfl) (of_decide_eq_true rfl) (of_decide_eq_true rfl)
      (of_decide_eq_true rfl) (of_decide_eq_true rfl) (hC ▸ hCamp) hqp]
    rw [hC]
    rw [if_neg (by exact fun h => absurd h.2 (of_decide_eq_true rfl))]

/-- Witness for C8 on a one-column table with no extra query parameters. -/
theorem c8_witness :
    ((gs "Name", gs "desc") : GoStr × GoStr) = (gs "Name", gs "desc") ∧
    ((gs "Name", gs "desc") : GoStr × GoStr).2 ≠ gs "asc" ∧
    ((gs "Name", gs "asc") : GoStr × GoStr) = (gs "Name", gs "asc") :=
  c8_toggle_two_cycle [gs "Name"] (gs "Name") [] 0 (by decide) (by decide) (by decide)
    (by decide) (gs "Name", gs "desc") (gs "Name", gs "asc") (by decide) (by decide)

/-- The page-URL builder closure of `generatePaginationHTML`: the page
parameter first, then every current query parameter whose key differs from
it, composed onto the base URL. -/
def generateURL (queryParam baseURL : GoStr) (currentQueryParams : List (GoStr × GoStr))
    (page : Int) : GoStr :=
  buildURL baseURL (goJoin '&'
    (pairStr queryParam (intToStr page) ::
      (currentQueryParams.filter (fun kv => kv.1 ≠ queryParam)).map
        (fun kv => pairStr kv.1 kv.2)))

/-- The window bounds computed by `generatePaginationHTML` before its
page-number loop. -/
def pageWindow (info : PaginationInfo) : Int × Int :=
  if info.TotalPages ≤ 5 then (1, info.TotalPages)
  else
    let start := info.CurrentPage - 2
    let start2 := if start < 1 then 1 else start
    let e := start2 + 4
    if e > info.TotalPages then
      let start3 := info.TotalPages - 4
      let start4 := if start3 < 1 then 1 else start3
      (start4, info.TotalPages)
    else (start2, e)

/-- The pages visited by the loop `for i := start; i <= end; i++`. -/
def windowPages (info : PaginationInfo) : List Int :=
  (List.range ((pageWindow info).2 + 1 - (pageWindow info).1).toNat).map
    (fun j => (pageWindow info).1 + (j : Int))

/-- The page-navigation URLs produced by `generatePaginationHTML`: the
Previous link when not on the first page, one link per window page other
than the current one, and the Next link when not on the last page. -/
def pageNavURLs (info : PaginationInfo) (p : Pagination)
    (qp : List (GoStr × GoStr)) : List GoStr :=
  if info.TotalPages ≤ 1 then []
  else
    (if info.CurrentPage > 1 then
      [generateURL (if p.QueryParam = [] then gs "page" else p.QueryParam) p.BaseURL qp
        (info.CurrentPage - 1)]
     else []) ++
    ((windowPages info).filter (fun i => i ≠ info.CurrentPage)).map
      (generateURL (if p.QueryParam = [] then gs "page" else p.QueryParam) p.BaseURL qp) ++
    (if info.CurrentPage < info.TotalPages then
      [generateURL (if p.QueryParam = [] then gs "page" else p.QueryParam) p.BaseURL qp
        (info.CurrentPage + 1)]
     else [])

/-- `generatePaginationHTML` from the source: one page at most yields no
markup; otherwise the nav markup whose hrefs are the `generateURL` values at
the previous page, the non-current window pages and the next page. -/
def generatePaginationHTML (info : PaginationInfo) (p : Pagination)
    (qp : List (GoStr × GoStr)) : GoStr :=
  if info.TotalPages ≤ 1 then []
  else
    let queryParam := if p.QueryParam = [] then gs "page" else p.QueryParam
    let prev :=
      if info.CurrentPage > 1 then
        gs "<li class=\"page-item\"><a class=\"page-link\" href=\"" ++
          generateURL queryParam p.BaseURL qp (info.CurrentPage - 1) ++
          gs "\">Previous</a></li>"
      else
        gs "<li class=\"page-item disabled\"><span class=\"page-link\">Previous</span></li>"
    let nums := (windowPages info).map (fun i =>
      if i = info.CurrentPage then
        gs "<li class=\"page-item active\"><span class=\"page-link\">" ++ intToStr i ++
          gs "</span></li>"
      else
        gs "<li class=\"page-item\"><a class=\"page-link\" href=\"" ++
          generateURL queryParam p.BaseURL qp i ++ gs "\">" ++ intToStr i ++
          gs "</a></li>")
    let next :=
      if info.CurrentPage < info.TotalPages then
        gs "<li class=\"page-item\"><a class=\"page-link\" href=\"" ++
          generateURL queryParam p.BaseURL qp (info.CurrentPage + 1) ++
          gs "\">Next</a></li>"
      else
        gs "<li class=\"page-item disabled\"><span class=\"page-link\">Next</span></li>"
    gs "<nav aria-label=\"Table pagination\"><ul class=\"pagination\">" ++ prev ++
      nums.foldl (fun acc x => acc ++ x) [] ++ next ++ gs "</ul></nav>"

theorem infix_append_left_cons (c : Char) (pre x y : GoStr) (h : x <:+: y) :
    x <:+: pre ++ c :: y := by
  obtain ⟨s, t, rfl⟩ := h
  exact ⟨pre ++ c :: s, t, by simp⟩

theorem infix_of_infix_append (x y pre : GoStr) (h : x <:+: y) : x <:+: pre ++ y := by
  obtain ⟨s, t, rfl⟩ := h
  exact ⟨pre ++ s, t, by simp⟩

theorem goJoin_cons_head (c : Char) (q : GoStr) (rest : List GoStr) :
    ∃ t, goJoin c (q :: rest) = q ++ t := by
  cases rest with
  | nil => exact ⟨[], by simp [goJoin]⟩
  | cons r rest2 => exact ⟨c :: goJoin c (r :: rest2), rfl⟩

theorem goJoin_cons_infix (c : Char) (q p0 : GoStr) (l : List GoStr) (hq : q ∈ l) :
    (c :: q) <:+: goJoin c (p0 :: l) := by
  induction l generalizing p0 with
  | nil => exact absurd hq (List.not_mem_nil q)
  | cons r rest ih =>
    have hj : goJoin c (p0 :: r :: rest) = p0 ++ c :: goJoin c (r :: rest) := rfl
    rw [hj]
    rcases List.mem_cons.mp hq with rfl | h2
    · obtain ⟨t, ht⟩ := goJoin_cons_head c q rest
      rw [ht]
      exact ⟨p0, t, by simp⟩
    · exact infix_append_left_cons c p0 _ _ (ih r h2)

/-- Every preserved pair appears verbatim, preceded by an ampersand, in any
URL `generateURL` builds. -/
theorem pair_infix_generateURL (queryParam baseURL : GoStr) (qp : List (GoStr × GoStr))
    (page : Int) (k v : GoStr) (hkv : (k, v) ∈ qp) (hk : k ≠ queryParam) :
    ('&' :: pairStr k v) <:+: generateURL queryParam baseURL qp page := by
  have hmem : pairStr k v ∈ (qp.filter (fun kv => kv.1 ≠ queryParam)).map
      (fun kv => pairStr kv.1 kv.2) :=
    List.mem_map.mpr ⟨(k, v), List.mem_filter.mpr ⟨hkv, by simpa using hk⟩, rfl⟩
  have hinf : ('&' :: pairStr k v) <:+: goJoin '&'
      (pairStr queryParam (intToStr page) ::
        (qp.filter (fun kv => kv.1 ≠ queryParam)).map (fun kv => pairStr kv.1 kv.2)) :=
    goJoin_cons_infix '&' _ _ _ hmem
  unfold generateURL buildURL
  split_ifs
  · exact infix_of_infix_append _ _ ['?'] hinf
  · exact infix_append_left_cons '&' _ _ _ hinf
  · exact infix_append_left_cons '?' _ _ _ hinf

/-- C4: every page-navigation URL produced by `generatePaginationHTML`
(previous, next and each numbered page link) carries the current "search"
and "sort_by" pairs unchanged — as the substrings "&search=value" and
"&sort_by=value" of its query string — whenever those keys differ from the
page query parameter. -/
theorem c4_page_links_preserve (info : PaginationInfo) (p : Pagination)
    (qp : List (GoStr × GoStr)) (v w : GoStr)
    (hsearch : (gs "search", v) ∈ qp) (hsort : (gs "sort_by", w) ∈ qp)
    (hs_ne : gs "search" ≠ (if p.QueryParam = [] then gs "page" else p.QueryParam))
    (hb_ne : gs "sort_by" ≠ (if p.QueryParam = [] then gs "page" else p.QueryParam))
    (url : GoStr) (hurl : url ∈ pageNavURLs info p qp) :
    ('&' :: pairStr (gs "search") v) <:+: url ∧
    ('&' :: pairStr (gs "sort_by") w) <:+: url := by
  unfold pageNavURLs at hurl
  by_cases htp : info.TotalPages ≤ 1
  · rw [if_pos htp] at hurl
    exact absurd hurl (List.not_mem_nil url)
  · rw [if_neg htp] at hurl
    have hform : ∃ page : Int,
        url = generateURL (if p.QueryParam = [] then gs "page" else p.QueryParam)
          p.BaseURL qp page := by
      rcases List.mem_append.mp hurl with h | h
      · rcases List.mem_append.mp h with h2 | h2
        · by_cases hcp : info.CurrentPage > 1
          · rw [if_pos hcp] at h2
            rw [List.mem_singleton.mp h2]
            exact ⟨info.CurrentPage - 1, rfl⟩
          · rw [if_neg hcp] at h2
            exact absurd h2 (List.not_mem_nil url)
        · obtain ⟨pg, _, hpg⟩ := List.mem_map.mp h2
          exact ⟨pg, hpg.symm⟩
      · by_cases hcp : info.CurrentPage < info.TotalPages
        · rw [if_pos hcp] at h
          rw [List.mem_singleton.mp h]
          exact ⟨info.CurrentPage + 1, rfl⟩
        · rw [if_neg hcp] at h
          exact absurd h (List.not_mem_nil url)
    obtain ⟨page, rfl⟩ := hform
    exact ⟨pair_infix_generateURL _ _ _ _ _ _ hsearch hs_ne,
           pair_infix_generateURL _ _ _ _ _ _ hsort hb_ne⟩

/-- Witness for C4: three pages, currently on page 2, with a search term and
a sort column in the current query state; the Previous link keeps both. -/
theorem c4_witness :
    ('&' :: pairStr (gs "search") (gs "x")) <:+:
      ((pageNavURLs
        { CurrentPage := 2, TotalPages := 3, TotalRows := 25, PageSize := 10,
          StartRow := 11, EndRow := 20 }
        { Enabled := true, PageSize := 10, CurrentPage := 2 }
        [(gs "search", gs "x"), (gs "sort_by", gs "name")]).getD 0 []) ∧
    ('&' :: pairStr (gs "sort_by") (gs "name")) <:+:
      ((pageNavURLs
        { CurrentPage := 2, TotalPages := 3, TotalRows := 25, PageSize := 10,
          StartRow := 11, EndRow := 20 }
        { Enabled := true, PageSize := 10, CurrentPage := 2 }
        [(gs "search", gs "x"), (gs "sort_by", gs "name")]).getD 0 []) :=
  c4_page_links_preserve
    { CurrentPage := 2, TotalPages := 3, TotalRows := 25, PageSize := 10,
      StartRow := 11, EndRow := 20 }
    { Enabled := true, PageSize := 10, CurrentPage := 2 }
    [(gs "search", gs "x"), (gs "sort_by", gs "name")] (gs "x") (gs "name")
    (by decide) (by decide) (by decide) (by decide) _ (by decide)

/-- C5: with at least two pages, the numbered page links are exactly pages
1 through TotalPages when TotalPages ≤ 5, and otherwise exactly the
five-element contiguous window starting at
min (max (CurrentPage - 2) 1) (TotalPages - 4). -/
theorem c5_page_window (info : PaginationInfo) (h2 : 2 ≤ info.TotalPages) :
    (info.TotalPages ≤ 5 →
      windowPages info =
        (List.range info.TotalPages.toNat).map (fun j => 1 + (j : Int))) ∧
    (5 < info.TotalPages →
      windowPages info =
        (List.range 5).map (fun j =>
          min (max (info.CurrentPage - 2) 1) (info.TotalPages - 4) + (j : Int))) := by
  constructor
  · intro h5
    have hpw : pageWindow info = (1, info.TotalPages) := by
      unfold pageWindow
      rw [if_pos h5]
    unfold windowPages
    rw [hpw]
    show (List.range (info.TotalPages + 1 - 1).toNat).map (fun j => 1 + (j : Int)) = _
    rw [show info.TotalPages + 1 - 1 = info.TotalPages from by omega]
  · intro h5
    have hpw : pageWindow info =
        (min (max (info.CurrentPage - 2) 1) (info.TotalPages - 4),
         min (max (info.CurrentPage - 2) 1) (info.TotalPages - 4) + 4) := by
      unfold pageWindow
      rw [if_neg (by omega)]
      show (if (if info.CurrentPage - 2 < 1 then 1 else info.CurrentPage - 2) + 4 >
          info.TotalPages then
          ((if info.TotalPages - 4 < 1 then 1 else info.TotalPages - 4), info.TotalPages)
        else ((if info.CurrentPage - 2 < 1 then 1 else info.CurrentPage - 2),
          (if info.CurrentPage - 2 < 1 then 1 else info.CurrentPage - 2) + 4)) = _
      split_ifs <;> rw [Prod.mk.injEq] <;> constructor <;> omega
    unfold windowPages
    rw [hpw]
    show (List.range
        ((min (max (info.CurrentPage - 2) 1) (info.TotalPages - 4) + 4 + 1 -
          min (max (info.CurrentPage - 2) 1) (info.TotalPages - 4)).toNat)).map
        (fun j => min (max (info.CurrentPage - 2) 1) (info.TotalPages - 4) + (j : Int)) = _
    rw [show min (max (info.CurrentPage - 2) 1) (info.TotalPages - 4) + 4 + 1 -
        min (max (info.CurrentPage - 2) 1) (info.TotalPages - 4) = (5 : Int) from by omega]
    rfl

/-- Witness for C5 at the spec's scenario: 12 pages, current page 1, window
1..5. -/
theorem c5_witness :
    windowPages
      { CurrentPage := 1, TotalPages := 12, TotalRows := 120, PageSize := 10,
        StartRow := 1, EndRow := 10 } = [1, 2, 3, 4, 5] :=
  Eq.trans
    ((c5_page_window
      { CurrentPage := 1, TotalPages := 12, TotalRows := 120, PageSize := 10,
        StartRow := 1, EndRow := 10 } (by decide)).2 (by decide))
    (by decide)

/-- A struct field as reflection sees it: its name and the raw value of its
json tag (the empty string when the tag is absent, exactly as Go's
`Tag.Get "json"` reports it). -/
structure StructField where
  name : GoStr
  jsonTag : GoStr
deriving DecidableEq

/-- A struct slice as far as header derivation is concerned: the element
type's fields in declaration order, and the slice length. -/
structure TypedSlice where
  fields : List StructField
  count : Nat
deriving DecidableEq

/-- `extractHeadersFromStruct` from the source: per field, the json tag's
first comma-separated component when the tag is nonempty, not "-" and has a
nonempty name part; the field's own name otherwise; in declaration order. -/
def extractHeadersFromStruct (fields : List StructField) : List GoStr :=
  fields.map (fun f =>
    if f.jsonTag ≠ [] ∧ f.jsonTag ≠ gs "-" then
      if (goSplit ',' f.jsonTag).headD [] ≠ [] then (goSplit ',' f.jsonTag).headD []
      else f.name
    else f.name)

/-- The headers `convertStructSliceToRows` produces for a struct slice:
empty for an empty slice, the extracted field headers otherwise. -/
def convertHeaders (t : TypedSlice) : List GoStr :=
  if t.count = 0 then [] else extractHeadersFromStruct t.fields

/-- The header resolution at the top of `RenderHTML`: with a typed
collection the derived headers are used, but explicitly supplied non-empty
headers override them; without a typed collection the explicit headers are
used as given. -/
def resolveRenderHeaders (dat : Option TypedSlice) (explicitHeaders : List GoStr) :
    List GoStr :=
  match dat with
  | some t => if 0 < explicitHeaders.length then explicitHeaders else convertHeaders t
  | none => explicitHeaders

/-- Modelled from the spec sentence for C7: the header a single field
contributes — the json tag's (first comma-separated) name when the tag is
present, not "-" and carries a nonempty name, the field's own name
otherwise. -/
def specHeaderOfField (f : StructField) : GoStr :=
  if f.jsonTag ≠ [] ∧ f.jsonTag ≠ gs "-" ∧ (goSplit ',' f.jsonTag).headD [] ≠ [] then
    (goSplit ',' f.jsonTag).headD []
  else f.name

/-- C7, amended: when a non-empty typed collection is supplied and no
explicit headers are given, the rendered headers are derived from the struct
fields — json tag name when present and usable, field name otherwise, in
declaration order.  (Explicitly supplied headers override the derived ones
even when a typed collection is supplied, which is why the original claim's
"explicit headers are used only when no typed collection is supplied"
fails.) -/
theorem c7_headers_derived (t : TypedSlice) (hcount : 1 ≤ t.count) :
    resolveRenderHeaders (some t) [] = t.fields.map specHeaderOfField := by
  have h1 : resolveRenderHeaders (some t) [] =
      if 0 < ([] : List GoStr).length then [] else convertHeaders t := rfl
  rw [h1, if_neg (by simp)]
  unfold convertHeaders
  rw [if_neg (by omega)]
  unfold extractHeadersFromStruct
  apply List.map_congr_left
  intro f _
  unfold specHeaderOfField
  by_cases hA : f.jsonTag ≠ [] ∧ f.jsonTag ≠ gs "-"
  · rw [if_pos hA]
    by_cases hC : (goSplit ',' f.jsonTag).headD [] ≠ []
    · rw [if_pos hC, if_pos ⟨hA.1, hA.2, hC⟩]
    · rw [if_neg hC, if_neg (fun h => hC h.2.2)]
  · rw [if_neg hA, if_neg (fun h => hA ⟨h.1, h.2.1⟩)]

/-- Witness for C7: a two-field struct, one field with a json tag carrying
options, one without a tag. -/
theorem c7_witness :
    resolveRenderHeaders
      (some ⟨[⟨gs "ID", gs "id,omitempty"⟩, ⟨gs "Name", []⟩], 2⟩) [] =
      [gs "id", gs "Name"] :=
  Eq.trans
    (c7_headers_derived ⟨[⟨gs "ID", gs "id,omitempty"⟩, ⟨gs "Name", []⟩], 2⟩ (by decide))
    (by decide)

/-- C7 counterexample: a typed collection is supplied, yet explicitly
supplied headers override the derived ones — the original claim's "explicit
headers are used only when no typed collection is supplied" is false. -/
theorem c7_counterexample :
    resolveRenderHeaders (some ⟨[⟨gs "Name", []⟩], 1⟩) [gs "X"] = [gs "X"] ∧
    resolveRenderHeaders (some ⟨[⟨gs "Name", []⟩], 1⟩) [gs "X"] ≠
      extractHeadersFromStruct [⟨gs "Name", []⟩] := by
  decide

end TableRenderer
